import Mathlib

/-!
# Verification of the autopy bitmap module

This file embeds the bitmap search-and-matching engine behind
`src/bitmap.rs` and proves the specified properties about it.

`src/bitmap.rs` is a thin Python-binding layer: the geometry types and the
search/matching algorithms live in the external `autopilot` crate, which is
not part of this repository's sources.  Definitions for those parts are
therefore modelled from the specification (each such definition carries a
doc comment starting with `Modelled from the spec:`); the binding-level
functions (`save`, `image_format_from_extension`, `get_color`, the
`*_py` wrappers) are translated directly from `src/bitmap.rs`.

Conventions of the embedding:
* `f64` coordinates are modelled as exact rationals `ℚ` (all operations the
  code performs on them are order comparisons and ring operations);
* `u8` color channels are `Fin 256`;
* fallible binding functions return `Except String _` (`.error` standing
  for a raised Python exception).
-/

/-- Modelled from the spec (§3, autopilot::geometry is external):
a 2-D point with float64 coordinates. -/
structure Point where
  x : ℚ
  y : ℚ
deriving DecidableEq, Repr

/-- Modelled from the spec (§3): a 2-D size with float64 components. -/
structure Size where
  width : ℚ
  height : ℚ
deriving DecidableEq, Repr

/-- Modelled from the spec (§3): an axis-aligned rectangle. -/
structure Rect where
  origin : Point
  size : Size
deriving DecidableEq, Repr

/-- Modelled from the spec (§3): half-open containment — a point `p` is
visible in `r` iff `r.origin.x ≤ p.x < r.origin.x + r.size.width` and the
analogous `y` condition (right/bottom edges excluded). -/
def Rect.is_point_visible (r : Rect) (p : Point) : Bool :=
  decide (r.origin.x ≤ p.x ∧ p.x < r.origin.x + r.size.width ∧
    r.origin.y ≤ p.y ∧ p.y < r.origin.y + r.size.height)

/-- Modelled from the spec (§4.6, §4.5 and §8): `r` is fully contained in
`outer` — the origin is no earlier than `outer`'s origin, the far corner
`origin + size` does not exceed `outer`'s far corner, and the size is
non-negative.  (§8 requires `cropped` with `rect = bounds` to succeed, so
the far corner is compared inclusively.) -/
def Rect.is_rect_visible (outer r : Rect) : Bool :=
  decide (outer.origin.x ≤ r.origin.x ∧ outer.origin.y ≤ r.origin.y ∧
    r.origin.x + r.size.width ≤ outer.origin.x + outer.size.width ∧
    r.origin.y + r.size.height ≤ outer.origin.y + outer.size.height ∧
    0 ≤ r.size.width ∧ 0 ≤ r.size.height)

/-- Modelled from the spec (§4.2): intersection of two rectangles; when the
rectangles do not overlap the resulting size is clamped to zero. -/
def Rect.intersection (a b : Rect) : Rect :=
  let x := max a.origin.x b.origin.x
  let y := max a.origin.y b.origin.y
  let xr := min (a.origin.x + a.size.width) (b.origin.x + b.size.width)
  let yb := min (a.origin.y + a.size.height) (b.origin.y + b.size.height)
  ⟨⟨x, y⟩, ⟨max 0 (xr - x), max 0 (yb - y)⟩⟩

/-- An RGBA color sample with `u8` channels (`image::Rgba<u8>`). -/
structure Rgba where
  r : Fin 256
  g : Fin 256
  b : Fin 256
  a : Fin 256
deriving DecidableEq, Repr

/-- The RGB triple of a sample, as returned by `channels4` with the alpha
component dropped. -/
def Rgba.rgb (c : Rgba) : Fin 256 × Fin 256 × Fin 256 :=
  (c.r, c.g, c.b)

/-- Absolute per-channel deviation between two `u8` channel values,
as an integer. -/
def channel_dev (a b : Fin 256) : ℤ :=
  ((a : ℤ) - (b : ℤ)).natAbs

/-- Modelled from the spec (§4.1): the maximum allowed per-channel
deviation for a tolerance, `d = round(tolerance * 255)`. -/
def tolerance_dev (t : ℚ) : ℤ :=
  round (t * 255)

/-- Modelled from the spec (§4.1, ColorMatcher): two colors match under
tolerance `t` iff every RGB channel deviation is at most
`round(t * 255)`; the alpha channels are ignored. -/
def colorsMatch (c1 c2 : Rgba) (t : ℚ) : Bool :=
  decide (channel_dev c1.r c2.r ≤ tolerance_dev t ∧
    channel_dev c1.g c2.g ≤ tolerance_dev t ∧
    channel_dev c1.b c2.b ≤ tolerance_dev t)

/-- Modelled from the spec (§3, PixelBuffer): a rectangular grid of RGBA
samples.  The sample storage is modelled as a total indexing function;
only indices below `width`/`height` are ever read. -/
structure PixelBuffer where
  width : ℕ
  height : ℕ
  pixels : ℕ → ℕ → Rgba

/-- Modelled from the spec (§3): the bounds of a buffer, a `Rect` with
origin `(0,0)` and the buffer's size. -/
def PixelBuffer.bounds (B : PixelBuffer) : Rect :=
  ⟨⟨0, 0⟩, ⟨(B.width : ℚ), (B.height : ℚ)⟩⟩

/-- Modelled from the spec (§3): read the sample at a point; the float64
coordinates are truncated to pixel indices. -/
def PixelBuffer.get_pixel (B : PixelBuffer) (p : Point) : Rgba :=
  B.pixels (Int.toNat ⌊p.x⌋) (Int.toNat ⌊p.y⌋)

/-- Modelled from the spec (§4.2, RegionScanner): the effective search
region — the intersection of the caller rect (defaulting to the buffer
bounds) with the buffer bounds. -/
def effective_region (bufBounds : Rect) (rect : Option Rect) : Rect :=
  Rect.intersection (rect.getD bufBounds) bufBounds

/-- Modelled from the spec (§4.2): the candidate positions of a region in
row-major scan order (`y` ascending outer, `x` ascending inner), advancing
pixel-by-pixel (integer steps) from the region's origin while remaining
inside the region's half-open extent. -/
def Rect.scanPositions (r : Rect) : List Point :=
  (List.range (Int.toNat ⌈r.size.height⌉)).flatMap fun (j : ℕ) =>
    (List.range (Int.toNat ⌈r.size.width⌉)).map fun (i : ℕ) =>
      ⟨r.origin.x + (i : ℚ), r.origin.y + (j : ℚ)⟩

/-- `p` comes strictly before `q` in row-major scan order. -/
def scanBefore (p q : Point) : Bool :=
  decide (p.y < q.y ∨ (p.y = q.y ∧ p.x < q.x))

/-- Modelled from the spec (§4.2): the positions actually scanned — the
region's positions with every position strictly before `start` (in scan
order) skipped; `start` defaults to the region's origin. -/
def searchPositions (bufBounds : Rect) (rect : Option Rect)
    (start : Option Point) : List Point :=
  let region := effective_region bufBounds rect
  let s := start.getD region.origin
  region.scanPositions.filter fun p => !scanBefore p s

/-- The per-position predicate of ColorSearch: the buffer's pixel at `p`
matches `color` (RGB channels only) under tolerance `t`. -/
def colorAt (B : PixelBuffer) (color : Rgba) (t : ℚ) (p : Point) : Bool :=
  colorsMatch (B.get_pixel p) color t

/-- Modelled from the spec (§4.3): first position in scan order whose
pixel matches `color` under the tolerance (defaulting to `0`), or `none`.
An absent rect defaults to the buffer bounds, an absent start point to the
region's origin. -/
def find_color (B : PixelBuffer) (color : Rgba) (tolerance : Option ℚ)
    (rect : Option Rect) (start : Option Point) : Option Point :=
  (searchPositions B.bounds rect start).find? (colorAt B color (tolerance.getD 0))

/-- Modelled from the spec (§4.3): all matching positions, in scan
order. -/
def find_every_color (B : PixelBuffer) (color : Rgba) (tolerance : Option ℚ)
    (rect : Option Rect) (start : Option Point) : List Point :=
  (searchPositions B.bounds rect start).filter (colorAt B color (tolerance.getD 0))

/-- Modelled from the spec (§4.3): the number of matching positions,
computed without materializing the sequence. -/
def count_of_color (B : PixelBuffer) (color : Rgba) (tolerance : Option ℚ)
    (rect : Option Rect) (start : Option Point) : ℕ :=
  (searchPositions B.bounds rect start).countP (colorAt B color (tolerance.getD 0))

/-- Modelled from the spec (§4.4): the needle placed with its top-left at
`p` stays entirely within the effective region (spec §4.4 degenerate-inputs
rule: a needle larger than the effective region yields no matches; since
the region is clipped to the buffer bounds this also keeps every needle
pixel inside the haystack). -/
def needleFitsAt (region : Rect) (N : PixelBuffer) (p : Point) : Bool :=
  decide (p.x + (N.width : ℚ) ≤ region.origin.x + region.size.width ∧
    p.y + (N.height : ℚ) ≤ region.origin.y + region.size.height)

/-- Modelled from the spec (§4.4): the needle matches the haystack at
top-left `p` iff every needle pixel at offset `(dx, dy)` matches the
haystack pixel at `p + (dx, dy)` under the tolerance (RGB only). -/
def needleMatchesAt (B N : PixelBuffer) (t : ℚ) (p : Point) : Bool :=
  (List.range N.height).all fun dy =>
    (List.range N.width).all fun dx =>
      colorsMatch (B.get_pixel ⟨p.x + (dx : ℚ), p.y + (dy : ℚ)⟩)
        (N.pixels dx dy) t

/-- The per-position predicate of TemplateSearch at `p`: the needle fits
and matches there. -/
def bitmapAt (B : PixelBuffer) (region : Rect) (N : PixelBuffer) (t : ℚ)
    (p : Point) : Bool :=
  needleFitsAt region N p && needleMatchesAt B N t p

/-- Modelled from the spec (§4.4): first position in scan order where the
needle fits and matches, or `none`; defaults as in `find_color`. -/
def find_bitmap (B N : PixelBuffer) (tolerance : Option ℚ)
    (rect : Option Rect) (start : Option Point) : Option Point :=
  (searchPositions B.bounds rect start).find?
    (bitmapAt B (effective_region B.bounds rect) N (tolerance.getD 0))

/-- Modelled from the spec (§4.4): all positions where the needle fits and
matches, in scan order. -/
def find_every_bitmap (B N : PixelBuffer) (tolerance : Option ℚ)
    (rect : Option Rect) (start : Option Point) : List Point :=
  (searchPositions B.bounds rect start).filter
    (bitmapAt B (effective_region B.bounds rect) N (tolerance.getD 0))

/-- Modelled from the spec (§4.4): the number of positions where the
needle fits and matches, computed without materializing the sequence. -/
def count_of_bitmap (B N : PixelBuffer) (tolerance : Option ℚ)
    (rect : Option Rect) (start : Option Point) : ℕ :=
  (searchPositions B.bounds rect start).countP
    (bitmapAt B (effective_region B.bounds rect) N (tolerance.getD 0))

/-- From `src/bitmap.rs` (`point_in_bounds`): whether the given point is
contained in the buffer's bounds. -/
def point_in_bounds (B : PixelBuffer) (x y : ℚ) : Bool :=
  B.bounds.is_point_visible ⟨x, y⟩

/-- From `src/bitmap.rs` (`rect_in_bounds`): whether the given rect is
contained in the buffer's bounds. -/
def rect_in_bounds (B : PixelBuffer) (r : Rect) : Bool :=
  B.bounds.is_rect_visible r

/-- From `src/bitmap.rs` (`get_color`): the `(r, g, b)` triple at a point
(alpha dropped); raises a `ValueError` when the point is out of bounds.
(The source tests the negated bounds check first and errors; the branches
are swapped here.) -/
def get_color (B : PixelBuffer) (x y : ℚ) :
    Except String (Fin 256 × Fin 256 × Fin 256) :=
  if B.bounds.is_point_visible ⟨x, y⟩ then
    .ok (B.get_pixel ⟨x, y⟩).rgb
  else
    .error "Point out of bounds"

/-- Modelled from the spec (§4.5, CropExtractor; `autopilot`'s
`Bitmap::cropped` is external): an independently owned copy of the portion
of the buffer under `r`, failing with an out-of-bounds error iff `r` is
not fully contained in the buffer's bounds.  The copy's local `(i, j)`
sample is the source sample at `r.origin + (i, j)`. -/
def cropped (B : PixelBuffer) (r : Rect) : Except String PixelBuffer :=
  if B.bounds.is_rect_visible r then
    .ok ⟨Int.toNat ⌊r.size.width⌋, Int.toNat ⌊r.size.height⌋,
      fun i j => B.pixels (Int.toNat ⌊r.origin.x⌋ + i) (Int.toNat ⌊r.origin.y⌋ + j)⟩
  else
    .error "Rect out of bounds"

/-- A rect as the binding receives it: `((x, y), (width, height))`. -/
def toRect (r : (ℚ × ℚ) × (ℚ × ℚ)) : Rect :=
  ⟨⟨r.1.1, r.1.2⟩, ⟨r.2.1, r.2.2⟩⟩

/-- A point as the binding receives it: `(x, y)`. -/
def toPoint (p : ℚ × ℚ) : Point :=
  ⟨p.1, p.2⟩

/-- From `src/bitmap.rs` (`find_color`): the binding builds an RGBA color
with alpha 255 from the `(r, g, b)` tuple, converts the optional rect and
start point, and returns `Ok` on both branches — the operation itself can
never raise. -/
def find_color_py (B : PixelBuffer) (color : Fin 256 × Fin 256 × Fin 256)
    (tolerance : Option ℚ) (rect : Option ((ℚ × ℚ) × (ℚ × ℚ)))
    (start : Option (ℚ × ℚ)) : Except String (Option (ℚ × ℚ)) :=
  match find_color B ⟨color.1, color.2.1, color.2.2, 255⟩ tolerance
      (rect.map toRect) (start.map toPoint) with
  | some p => .ok (some (p.x, p.y))
  | none => .ok none

/-- From `src/bitmap.rs` (`find_every_color`): always returns `Ok` of the
list of coordinate pairs. -/
def find_every_color_py (B : PixelBuffer) (color : Fin 256 × Fin 256 × Fin 256)
    (tolerance : Option ℚ) (rect : Option ((ℚ × ℚ) × (ℚ × ℚ)))
    (start : Option (ℚ × ℚ)) : Except String (List (ℚ × ℚ)) :=
  let c : Rgba := ⟨color.1, color.2.1, color.2.2, 255⟩
  .ok ((find_every_color B c tolerance (rect.map toRect) (start.map toPoint)).map
    fun p => (p.x, p.y))

/-- From `src/bitmap.rs` (`count_of_color`): always returns `Ok` of the
count. -/
def count_of_color_py (B : PixelBuffer) (color : Fin 256 × Fin 256 × Fin 256)
    (tolerance : Option ℚ) (rect : Option ((ℚ × ℚ) × (ℚ × ℚ)))
    (start : Option (ℚ × ℚ)) : Except String ℕ :=
  let c : Rgba := ⟨color.1, color.2.1, color.2.2, 255⟩
  .ok (count_of_color B c tolerance (rect.map toRect) (start.map toPoint))

/-- From `src/bitmap.rs` (`find_bitmap`): returns `Ok` on both branches —
the operation itself can never raise. -/
def find_bitmap_py (B N : PixelBuffer) (tolerance : Option ℚ)
    (rect : Option ((ℚ × ℚ) × (ℚ × ℚ))) (start : Option (ℚ × ℚ)) :
    Except String (Option (ℚ × ℚ)) :=
  match find_bitmap B N tolerance (rect.map toRect) (start.map toPoint) with
  | some p => .ok (some (p.x, p.y))
  | none => .ok none

/-- From `src/bitmap.rs` (`find_every_bitmap`): always returns `Ok` of the
list of coordinate pairs. -/
def find_every_bitmap_py (B N : PixelBuffer) (tolerance : Option ℚ)
    (rect : Option ((ℚ × ℚ) × (ℚ × ℚ))) (start : Option (ℚ × ℚ)) :
    Except String (List (ℚ × ℚ)) :=
  .ok ((find_every_bitmap B N tolerance (rect.map toRect) (start.map toPoint)).map
    fun p => (p.x, p.y))

/-- From `src/bitmap.rs` (`count_of_bitmap`): always returns `Ok` of the
count. -/
def count_of_bitmap_py (B N : PixelBuffer) (tolerance : Option ℚ)
    (rect : Option ((ℚ × ℚ) × (ℚ × ℚ))) (start : Option (ℚ × ℚ)) :
    Except String ℕ :=
  .ok (count_of_bitmap B N tolerance (rect.map toRect) (start.map toPoint))

/-- The image formats of the `image` crate that `src/bitmap.rs` maps
extensions onto. -/
inductive ImageFormat where
  | BMP
  | GIF
  | HDR
  | JPEG
  | PNG
  | TGA
  | TIFF
  | WEBP
deriving DecidableEq, Repr

/-- Lower-casing of a character sequence (`str::to_lowercase`; the paths
involved are ASCII, where `char`-wise lower-casing is exact). -/
def toLowerStr (s : List Char) : List Char :=
  s.map Char.toLower

/-- From `src/bitmap.rs` (`image_format_from_extension`): lower-case the
extension and map exactly the eight known extension strings to formats;
anything else maps to `none`. -/
def image_format_from_extension (ext : List Char) : Option ImageFormat :=
  if toLowerStr ext = ['b', 'm', 'p'] then some ImageFormat.BMP
  else if toLowerStr ext = ['g', 'i', 'f'] then some ImageFormat.GIF
  else if toLowerStr ext = ['h', 'd', 'r'] then some ImageFormat.HDR
  else if toLowerStr ext = ['j', 'p', 'e', 'g'] then some ImageFormat.JPEG
  else if toLowerStr ext = ['p', 'n', 'g'] then some ImageFormat.PNG
  else if toLowerStr ext = ['t', 'g', 'a'] then some ImageFormat.TGA
  else if toLowerStr ext = ['t', 'i', 'f', 'f'] then some ImageFormat.TIFF
  else if toLowerStr ext = ['w', 'e', 'b', 'p'] then some ImageFormat.WEBP
  else none

/-- `std::path::Path::file_name` on a character sequence: the final
component of the path — everything after the last `/`, ignoring trailing
slashes. -/
def fileNameOf (path : List Char) : List Char :=
  ((path.reverse.dropWhile (fun c => c = '/')).takeWhile (fun c => c ≠ '/')).reverse

/-- `std::path::Path::extension` on a file name: the portion after the
last `.`, or `none` when there is no `.` or nothing precedes the last `.`
(hidden files such as `.gitignore` have no extension). -/
def extensionOf (name : List Char) : Option (List Char) :=
  let rev := name.reverse
  let afterRev := rev.takeWhile (fun c => c ≠ '.')
  match rev.dropWhile (fun c => c ≠ '.') with
  | [] => none
  | _ :: beforeRev => if beforeRev.isEmpty then none else some afterRev.reverse

/-- From `src/bitmap.rs` (`save`, lines 28–30): the format string actually
looked up — the explicit `format` argument if present, else the path's
extension, else the empty string. -/
def resolvedFormat (path : List Char) (format : Option (List Char)) : List Char :=
  (format.or (extensionOf (fileNameOf path))).getD []

/-- From `src/bitmap.rs` (`save`): resolve the format string and either
accept (`.ok` with the resolved `ImageFormat`, after which the buffer is
encoded and written — file output is an external effect outside this
model) or raise `ValueError` with an `Unknown format` message. -/
def save (path : List Char) (format : Option (List Char)) :
    Except String ImageFormat :=
  match image_format_from_extension (resolvedFormat path format) with
  | some fmt => .ok fmt
  | none => .error (String.mk ("Unknown format ".toList ++ resolvedFormat path format))

/-- Opaque red, `(255, 0, 0)`. -/
def redPx : Rgba := ⟨255, 0, 0, 255⟩

/-- Opaque near-red, `(250, 0, 0)` (spec §8 example color). -/
def nearRedPx : Rgba := ⟨250, 0, 0, 255⟩

/-- Opaque black. -/
def blackPx : Rgba := ⟨0, 0, 0, 255⟩

/-- The spec §8 example buffer: 4×4, all black except pixel `(2, 1)`,
which is red. -/
def exampleBuf : PixelBuffer :=
  ⟨4, 4, fun x y => if x = 2 ∧ y = 1 then redPx else blackPx⟩

/-- Whether an `Except` result is a success (`Ok`) rather than a raised
exception. -/
def exceptOk {e a : Type} : Except e a -> Bool
  | .ok _ => true
  | .error _ => false

/-- A 1-by-1 buffer whose only pixel is red. -/
def oneRed : PixelBuffer := ⟨1, 1, fun _ _ => redPx⟩

lemma channel_dev_le_zero {a b : Fin 256} : channel_dev a b ≤ 0 ↔ a = b := by
  have := a.isLt
  have := b.isLt
  simp only [channel_dev]
  omega

lemma channel_dev_le_255 (a b : Fin 256) : channel_dev a b ≤ 255 := by
  have := a.isLt
  have := b.isLt
  simp only [channel_dev]
  omega

lemma channel_dev_self (a : Fin 256) : channel_dev a a = 0 := by
  simp [channel_dev]

lemma tolerance_dev_zero : tolerance_dev 0 = 0 := by
  simp [tolerance_dev]

lemma tolerance_dev_one : tolerance_dev 1 = 255 := by
  norm_num [tolerance_dev, round_eq]

lemma tolerance_dev_nonneg {t : ℚ} (ht : 0 ≤ t) : 0 ≤ tolerance_dev t := by
  rw [tolerance_dev, round_eq]
  exact Int.floor_nonneg.mpr (by positivity)

lemma colorsMatch_self (c : Rgba) {t : ℚ} (ht : 0 ≤ t) :
    colorsMatch c c t = true := by
  simp [colorsMatch, channel_dev_self, tolerance_dev_nonneg ht]

/-- C1: for tolerance `t` in `[0, 1]`, the matcher used by
`find_color`/`find_bitmap` succeeds iff every RGB channel deviation is at
most `d = round(t * 255)`; tolerance `0` requires exact equality of the
three channels and tolerance `1` matches every color pair. -/
theorem colorsMatch_tolerance_rule (a b : Rgba) (t : ℚ) :
    (0 ≤ t → t ≤ 1 →
      (colorsMatch a b t = true ↔
        channel_dev a.r b.r ≤ round (t * 255) ∧
        channel_dev a.g b.g ≤ round (t * 255) ∧
        channel_dev a.b b.b ≤ round (t * 255)))
    ∧ (colorsMatch a b 0 = true ↔ a.r = b.r ∧ a.g = b.g ∧ a.b = b.b)
    ∧ colorsMatch a b 1 = true := by
  refine ⟨fun _ _ => ?_, ?_, ?_⟩
  · simp [colorsMatch, tolerance_dev]
  · simp [colorsMatch, tolerance_dev_zero, channel_dev_le_zero]
  · simp [colorsMatch, tolerance_dev_one, channel_dev_le_255]

/-- C1 witness: at tolerance `1/20` (the spec §8 example), red `(255,0,0)`
matches near-red `(250,0,0)` since the deviation `5` is at most
`round(0.05 * 255) = 13`. -/
theorem colorsMatch_tolerance_rule_witness :
    (0 : ℚ) ≤ 1 / 20 ∧ (1 / 20 : ℚ) ≤ 1 ∧
      colorsMatch redPx nearRedPx (1 / 20) = true :=
  ⟨by norm_num, by norm_num,
    ((colorsMatch_tolerance_rule redPx nearRedPx (1 / 20)).1 (by norm_num)
      (by norm_num)).mpr
      (by
        have hr : round ((1 / 20 : ℚ) * 255) = 13 := by norm_num [round_eq]
        rw [hr]
        refine ⟨?_, ?_, ?_⟩ <;> decide)⟩

/-- C2: for every buffer, color/needle, tolerance, rect and start point,
`count_of_color` equals the length of `find_every_color` and
`count_of_bitmap` equals the length of `find_every_bitmap`, at the core
level and through the binding wrappers. -/
theorem count_eq_length_of_find_every (B N : PixelBuffer) (c : Rgba)
    (cT : Fin 256 × Fin 256 × Fin 256) (tol : Option ℚ) (rect : Option Rect)
    (rT : Option ((ℚ × ℚ) × (ℚ × ℚ))) (start : Option Point)
    (sT : Option (ℚ × ℚ)) :
    count_of_color B c tol rect start = (find_every_color B c tol rect start).length
    ∧ count_of_bitmap B N tol rect start = (find_every_bitmap B N tol rect start).length
    ∧ count_of_color_py B cT tol rT sT = (find_every_color_py B cT tol rT sT).map List.length
    ∧ count_of_bitmap_py B N tol rT sT = (find_every_bitmap_py B N tol rT sT).map List.length := by
  refine ⟨?_, ?_, ?_, ?_⟩
  · simp [count_of_color, find_every_color, List.countP_eq_length_filter]
  · simp [count_of_bitmap, find_every_bitmap, List.countP_eq_length_filter]
  · simp [count_of_color_py, find_every_color_py, Except.map, count_of_color,
      find_every_color, List.countP_eq_length_filter]
  · simp [count_of_bitmap_py, find_every_bitmap_py, Except.map, count_of_bitmap,
      find_every_bitmap, List.countP_eq_length_filter]

/-- C6: `point_in_bounds` is half-open containment — true iff
`0 ≤ x < width` and `0 ≤ y < height`; in particular `(4, 4)` is out of
bounds for the 4×4 example buffer. -/
theorem point_in_bounds_half_open (B : PixelBuffer) (x y : ℚ) :
    (point_in_bounds B x y = true ↔
      0 ≤ x ∧ x < (B.width : ℚ) ∧ 0 ≤ y ∧ y < (B.height : ℚ))
    ∧ point_in_bounds exampleBuf 4 4 = false := by
  constructor
  · simp [point_in_bounds, Rect.is_point_visible, PixelBuffer.bounds]
  · simp [point_in_bounds, Rect.is_point_visible, PixelBuffer.bounds, exampleBuf]

/-- C6 witness: `(3, 3)` is in bounds for the 4×4 example buffer. -/
theorem point_in_bounds_half_open_witness :
    point_in_bounds exampleBuf 3 3 = true :=
  (point_in_bounds_half_open exampleBuf 3 3).1.mpr
    (by norm_num [exampleBuf])

/-- C4: `get_color` fails with an out-of-bounds error iff the point is
not contained in the buffer's bounds, and otherwise returns the RGB
triple of the pixel at that point with the alpha component dropped. -/
theorem get_color_bounds_spec (B : PixelBuffer) (x y : ℚ) :
    ((∃ e, get_color B x y = .error e) ↔ point_in_bounds B x y = false)
    ∧ (point_in_bounds B x y = true →
        get_color B x y = .ok (B.get_pixel ⟨x, y⟩).rgb) := by
  cases hb : (PixelBuffer.bounds B).is_point_visible ⟨x, y⟩ <;>
    simp [get_color, point_in_bounds, hb]

/-- C4 witness: reading the example buffer at the in-bounds point `(2, 1)`
succeeds and yields the red triple `(255, 0, 0)`. -/
theorem get_color_bounds_spec_witness :
    point_in_bounds exampleBuf 2 1 = true ∧
      get_color exampleBuf 2 1 = .ok (255, 0, 0) := by
  have hin : point_in_bounds exampleBuf 2 1 = true := by
    simp [point_in_bounds, Rect.is_point_visible, PixelBuffer.bounds, exampleBuf]
    norm_num
  have h := (get_color_bounds_spec exampleBuf 2 1).2 hin
  refine ⟨hin, ?_⟩
  rw [h]
  have h2 : Int.toNat ⌊(2 : ℚ)⌋ = 2 := by
    rw [show ⌊(2 : ℚ)⌋ = 2 from by norm_num]
    decide
  have h1 : Int.toNat ⌊(1 : ℚ)⌋ = 1 := by
    rw [show ⌊(1 : ℚ)⌋ = 1 from by norm_num]
    decide
  simp [PixelBuffer.get_pixel, exampleBuf, h1, h2, redPx, Rgba.rgb]

/-- C5: `cropped` fails with an out-of-bounds error iff the rect is not
fully contained in the buffer's bounds (origin no earlier than `(0, 0)`
and far corner within the size, sizes non-negative); on success the
result's sample at local `(0, 0)` is the source pixel at the rect's
origin. -/
theorem cropped_bounds_spec (B : PixelBuffer) (r : Rect) :
    ((∃ e, cropped B r = .error e) ↔ B.bounds.is_rect_visible r = false)
    ∧ (B.bounds.is_rect_visible r = true ↔
        (0 ≤ r.origin.x ∧ 0 ≤ r.origin.y ∧
          r.origin.x + r.size.width ≤ (B.width : ℚ) ∧
          r.origin.y + r.size.height ≤ (B.height : ℚ) ∧
          0 ≤ r.size.width ∧ 0 ≤ r.size.height))
    ∧ (∀ C, cropped B r = .ok C → C.pixels 0 0 = B.get_pixel r.origin) := by
  refine ⟨?_, ?_, ?_⟩
  · cases hv : (PixelBuffer.bounds B).is_rect_visible r <;> simp [cropped, hv]
  · simp [Rect.is_rect_visible, PixelBuffer.bounds]
  · intro C hC
    cases hv : (PixelBuffer.bounds B).is_rect_visible r <;>
      simp [cropped, hv] at hC
    subst hC
    simp [PixelBuffer.get_pixel]

/-- C5 witness: cropping the 4×4 example buffer by its full bounds
succeeds, and the crop's sample at local `(0, 0)` is the source pixel at
the rect origin `(0, 0)`. -/
theorem cropped_bounds_spec_witness :
    (cropped exampleBuf ⟨⟨0, 0⟩, ⟨4, 4⟩⟩).map (fun C => C.pixels 0 0) =
      .ok (exampleBuf.get_pixel ⟨0, 0⟩) := by
  have hv : exampleBuf.bounds.is_rect_visible ⟨⟨0, 0⟩, ⟨4, 4⟩⟩ = true :=
    (cropped_bounds_spec exampleBuf ⟨⟨0, 0⟩, ⟨4, 4⟩⟩).2.1.mpr
      (by norm_num [exampleBuf])
  have hC : cropped exampleBuf ⟨⟨0, 0⟩, ⟨4, 4⟩⟩ =
      .ok ⟨Int.toNat ⌊(4 : ℚ)⌋, Int.toNat ⌊(4 : ℚ)⌋,
        fun i j => exampleBuf.pixels (Int.toNat ⌊(0 : ℚ)⌋ + i)
          (Int.toNat ⌊(0 : ℚ)⌋ + j)⟩ := by
    rw [cropped, if_pos hv]
  have hpix := (cropped_bounds_spec exampleBuf ⟨⟨0, 0⟩, ⟨4, 4⟩⟩).2.2 _ hC
  rw [hC]
  simpa [Except.map] using hpix

/-- C8: the saved image's format is resolved from the explicit format
argument when present and from the path's filename extension otherwise,
case-insensitively, over exactly the extension set
`{bmp, gif, hdr, jpeg, png, tga, tiff, webp}`; any other resolved format
string makes `save` fail with a `ValueError`, never a silent fallback. -/
theorem save_format_resolution (path s : List Char)
    (fmtArg : Option (List Char)) :
    resolvedFormat path (some s) = s
    ∧ resolvedFormat path none = (extensionOf (fileNameOf path)).getD []
    ∧ ((image_format_from_extension s).isSome = true ↔
        toLowerStr s ∈ [['b', 'm', 'p'], ['g', 'i', 'f'], ['h', 'd', 'r'],
          ['j', 'p', 'e', 'g'], ['p', 'n', 'g'], ['t', 'g', 'a'],
          ['t', 'i', 'f', 'f'], ['w', 'e', 'b', 'p']])
    ∧ (∀ s2, toLowerStr s = toLowerStr s2 →
        image_format_from_extension s = image_format_from_extension s2)
    ∧ (exceptOk (save path fmtArg) = false ↔
        image_format_from_extension (resolvedFormat path fmtArg) = none) := by
  refine ⟨?_, ?_, ?_, ?_, ?_⟩
  · simp [resolvedFormat, Option.or]
  · simp [resolvedFormat, Option.or]
  · unfold image_format_from_extension
    split_ifs with h1 h2 h3 h4 h5 h6 h7 h8 <;> simp_all
  · intro s2 h
    unfold image_format_from_extension
    rw [h]
  · unfold save
    cases himg : image_format_from_extension (resolvedFormat path fmtArg) <;>
      simp [himg, exceptOk]

/-- C8 witness: `"PNG"` resolves like `"png"` (case-insensitive), and
saving to `photo.tiff` with no explicit format is accepted. -/
theorem save_format_resolution_witness :
    image_format_from_extension ['P', 'N', 'G'] =
      image_format_from_extension ['p', 'n', 'g']
    ∧ exceptOk (save "photo.tiff".toList none) = true := by
  constructor
  · exact (save_format_resolution [] ['P', 'N', 'G'] none).2.2.2.1
      ['p', 'n', 'g'] (by decide)
  · have h := (save_format_resolution "photo.tiff".toList
      ['t', 'i', 'f', 'f'] none).2.2.2.2
    have himg : image_format_from_extension
        (resolvedFormat "photo.tiff".toList none) = some ImageFormat.TIFF := by
      decide
    cases he : exceptOk (save "photo.tiff".toList none)
    · rw [h.mp he] at himg
      exact absurd himg (by decide)
    · rfl

lemma extensionOf_append_dot (u e : List Char) (hdot : '.' ∉ e) :
    extensionOf (u ++ '.' :: e) = if u = [] then none else some e := by
  have hall : ∀ c ∈ e.reverse, (fun c => decide (c ≠ '.')) c = true := by
    intro c hc
    rw [List.mem_reverse] at hc
    show decide (c ≠ '.') = true
    rw [decide_eq_true_eq]
    intro h
    subst h
    exact hdot hc
  have hdotstop : decide ('.' ≠ '.') = false := by decide
  unfold extensionOf
  simp only [List.reverse_append, List.reverse_cons, List.append_assoc,
    List.nil_append, List.singleton_append]
  rw [List.takeWhile_append_of_pos hall, List.dropWhile_append_of_pos hall]
  rw [List.takeWhile_cons, List.dropWhile_cons]
  rw [hdotstop]
  simp only [Bool.false_eq_true, if_false, List.takeWhile_nil,
    List.append_nil, List.reverse_reverse]
  by_cases hu : u = []
  · simp [hu]
  · simp only [hu, if_false]
    rw [if_neg]
    simp only [List.isEmpty_iff]
    exact fun h => hu (by simpa using congrArg List.reverse h)

lemma fileNameOf_append_dot (s e : List Char) (he : e ≠ [])
    (hslash : '/' ∉ e) :
    fileNameOf (s ++ '.' :: e) =
      (s.reverse.takeWhile (fun c => decide (c ≠ '/'))).reverse ++ '.' :: e := by
  have hall : ∀ c ∈ e.reverse, (fun c => decide (c ≠ '/')) c = true := by
    intro c hc
    rw [List.mem_reverse] at hc
    show decide (c ≠ '/') = true
    rw [decide_eq_true_eq]
    intro h
    subst h
    exact hslash hc
  obtain ⟨z, zs, hz⟩ : ∃ z zs, e.reverse = z :: zs := by
    cases herev : e.reverse with
    | nil => exact absurd (List.reverse_eq_nil_iff.mp herev) he
    | cons z zs => exact ⟨z, zs, rfl⟩
  have hzmem : z ∈ e := by
    rw [← List.mem_reverse, hz]
    exact List.mem_cons_self z zs
  have hzb : decide (z = '/') = false := by
    rw [decide_eq_false_iff_not]
    intro h
    subst h
    exact hslash hzmem
  have hdotpass : decide ('.' ≠ '/') = true := by decide
  unfold fileNameOf
  simp only [List.reverse_append, List.reverse_cons, List.append_assoc,
    List.nil_append, List.singleton_append]
  rw [hz, List.cons_append, List.dropWhile_cons, hzb]
  simp only [Bool.false_eq_true, if_false]
  rw [← List.cons_append, ← hz, List.takeWhile_append_of_pos hall,
    List.takeWhile_cons, hdotpass]
  simp only [if_true, List.reverse_append, List.reverse_cons,
    List.reverse_reverse, List.append_assoc, List.singleton_append,
    List.nil_append]

lemma save_dot_ext_error (s e : List Char) (he : e ≠ []) (hdot : '.' ∉ e)
    (hslash : '/' ∉ e) (hunk : image_format_from_extension e = none) :
    exceptOk (save (s ++ '.' :: e) none) = false := by
  have hres : resolvedFormat (s ++ '.' :: e) none =
      (extensionOf (fileNameOf (s ++ '.' :: e))).getD [] := by
    simp [resolvedFormat, Option.or]
  rw [save, hres, fileNameOf_append_dot s e he hslash,
    extensionOf_append_dot _ e hdot]
  by_cases hu : (s.reverse.takeWhile (fun c => c ≠ '/')).reverse = []
  · rw [if_pos hu]
    simp only [Option.getD_none]
    rw [show image_format_from_extension [] = none from by decide]
    rfl
  · rw [if_neg hu]
    simp only [Option.getD_some]
    rw [hunk]
    rfl

/-- C10: `"jpg"` (in any letter case) is not a recognized extension — for
every path ending in `".jpg"` and no explicit format argument, `save`
raises a `ValueError` — even though the JPEG format itself is supported
under the extension `"jpeg"`. -/
theorem save_jpg_unrecognized (s : List Char) (c1 c2 c3 : Char)
    (h1 : c1 = 'j' ∨ c1 = 'J') (h2 : c2 = 'p' ∨ c2 = 'P')
    (h3 : c3 = 'g' ∨ c3 = 'G') :
    exceptOk (save (s ++ ['.', c1, c2, c3]) none) = false
    ∧ image_format_from_extension ['j', 'p', 'g'] = none
    ∧ image_format_from_extension ['j', 'p', 'e', 'g'] = some ImageFormat.JPEG
    ∧ exceptOk (save "photo.jpeg".toList none) = true := by
  refine ⟨?_, by decide, by decide, by decide⟩
  show exceptOk (save (s ++ '.' :: [c1, c2, c3]) none) = false
  apply save_dot_ext_error s [c1, c2, c3]
  · simp
  · rcases h1 with rfl | rfl <;> rcases h2 with rfl | rfl <;>
      rcases h3 with rfl | rfl <;> decide
  · rcases h1 with rfl | rfl <;> rcases h2 with rfl | rfl <;>
      rcases h3 with rfl | rfl <;> decide
  · rcases h1 with rfl | rfl <;> rcases h2 with rfl | rfl <;>
      rcases h3 with rfl | rfl <;> decide

/-- C10 witness: saving to `a.jPg` with no explicit format raises. -/
theorem save_jpg_unrecognized_witness :
    exceptOk (save (['a'] ++ ['.', 'j', 'P', 'g']) none) = false :=
  (save_jpg_unrecognized ['a'] 'j' 'P' 'g' (Or.inl rfl) (Or.inr rfl)
    (Or.inl rfl)).1

lemma intersection_self (r : Rect) (hw : 0 ≤ r.size.width)
    (hh : 0 ≤ r.size.height) : Rect.intersection r r = r := by
  obtain ⟨⟨ox, oy⟩, ⟨w, h⟩⟩ := r
  simp only at hw hh
  simp [Rect.intersection, max_self, min_self, add_sub_cancel_left,
    max_eq_right hw, max_eq_right hh]

lemma effective_region_none (B : PixelBuffer) :
    effective_region B.bounds none = B.bounds := by
  rw [effective_region, Option.getD]
  exact intersection_self _ (by simp [PixelBuffer.bounds]) (by simp [PixelBuffer.bounds])

lemma effective_region_full (B : PixelBuffer) :
    effective_region B.bounds (some B.bounds) = B.bounds := by
  rw [effective_region, Option.getD]
  exact intersection_self _ (by simp [PixelBuffer.bounds]) (by simp [PixelBuffer.bounds])

lemma scanPositions_bounds_cons (B : PixelBuffer) (hw : 0 < B.width)
    (hh : 0 < B.height) :
    ∃ rest, B.bounds.scanPositions = ⟨0, 0⟩ :: rest := by
  obtain ⟨w', hw'⟩ : ∃ w', B.width = w' + 1 := ⟨B.width - 1, by omega⟩
  obtain ⟨h', hh'⟩ : ∃ h', B.height = h' + 1 := ⟨B.height - 1, by omega⟩
  have hcw : Int.toNat ⌈((B.width : ℕ) : ℚ)⌉ = w' + 1 := by
    rw [Int.ceil_natCast, Int.toNat_natCast, hw']
  have hch : Int.toNat ⌈((B.height : ℕ) : ℚ)⌉ = h' + 1 := by
    rw [Int.ceil_natCast, Int.toNat_natCast, hh']
  rw [Rect.scanPositions]
  simp only [PixelBuffer.bounds] at hcw hch ⊢
  rw [hcw, hch, List.range_succ_eq_map, List.flatMap_cons,
    List.range_succ_eq_map, List.map_cons, List.cons_append]
  have hpt : (⟨0 + ((0 : ℕ) : ℚ), 0 + ((0 : ℕ) : ℚ)⟩ : Point) = ⟨0, 0⟩ := by
    norm_num
  rw [hpt]
  exact ⟨_, rfl⟩

lemma scanBefore_self (p : Point) : scanBefore p p = false := by
  simp [scanBefore]

lemma searchPositions_full_cons (B : PixelBuffer) (rect : Option Rect)
    (hr : effective_region B.bounds rect = B.bounds) (hw : 0 < B.width)
    (hh : 0 < B.height) :
    ∃ rest, searchPositions B.bounds rect none = ⟨0, 0⟩ :: rest := by
  obtain ⟨rest, hrest⟩ := scanPositions_bounds_cons B hw hh
  rw [searchPositions]
  simp only [hr, hrest, Option.getD_none]
  have hb : B.bounds.origin = ⟨0, 0⟩ := rfl
  rw [hb, List.filter_cons_of_pos (by rw [scanBefore_self]; rfl)]
  exact ⟨_, rfl⟩

lemma get_pixel_natCast (B : PixelBuffer) (dx dy : ℕ) :
    B.get_pixel ⟨0 + (dx : ℚ), 0 + (dy : ℚ)⟩ = B.pixels dx dy := by
  rw [PixelBuffer.get_pixel]
  simp [Int.floor_natCast, Int.toNat_natCast]

lemma bitmapAt_self_origin (B : PixelBuffer) :
    bitmapAt B B.bounds B 0 ⟨0, 0⟩ = true := by
  rw [bitmapAt, Bool.and_eq_true]
  constructor
  · simp [needleFitsAt, PixelBuffer.bounds]
  · rw [needleMatchesAt, List.all_eq_true]
    intro dy hdy
    rw [List.all_eq_true]
    intro dx hdx
    rw [get_pixel_natCast]
    exact colorsMatch_self _ le_rfl

/-- C7: a buffer matches itself at its own origin — `find_bitmap` of a
(non-empty) buffer against itself with tolerance `0` over its full bounds
returns the search region's origin, `(0, 0)`. -/
theorem find_bitmap_self_at_origin (B : PixelBuffer) (hw : 0 < B.width)
    (hh : 0 < B.height) :
    find_bitmap B B (some 0) (some B.bounds) none = some ⟨0, 0⟩
    ∧ (effective_region B.bounds (some B.bounds)).origin = ⟨0, 0⟩ := by
  have hr := effective_region_full B
  obtain ⟨rest, hcons⟩ := searchPositions_full_cons B (some B.bounds) hr hw hh
  constructor
  · rw [find_bitmap, hcons, hr]
    simp only [Option.getD_some]
    rw [List.find?_cons_of_pos _ (bitmapAt_self_origin B)]
  · rw [hr]
    rfl

/-- C7 witness: the 4×4 example buffer finds itself at `(0, 0)`. -/
theorem find_bitmap_self_at_origin_witness :
    0 < exampleBuf.width ∧ 0 < exampleBuf.height ∧
      find_bitmap exampleBuf exampleBuf (some 0) (some exampleBuf.bounds)
        none = some ⟨0, 0⟩ :=
  ⟨by decide, by decide,
    (find_bitmap_self_at_origin exampleBuf (by decide) (by decide)).1⟩

lemma scanPositions_nil_of_nonpos (r : Rect)
    (h : r.size.width ≤ 0 ∨ r.size.height ≤ 0) : r.scanPositions = [] := by
  rw [Rect.scanPositions]
  rcases h with h | h
  · have hz : Int.toNat ⌈r.size.width⌉ = 0 := by
      rw [Int.toNat_eq_zero]
      exact Int.ceil_le.mpr (by exact_mod_cast h)
    rw [hz]
    simp
  · have hz : Int.toNat ⌈r.size.height⌉ = 0 := by
      rw [Int.toNat_eq_zero]
      exact Int.ceil_le.mpr (by exact_mod_cast h)
    rw [hz]
    simp

lemma color_allFalse_empty (B : PixelBuffer) (c : Rgba) (tol : Option ℚ)
    (rect : Option Rect) (start : Option Point)
    (h : ∀ p ∈ searchPositions B.bounds rect start,
      colorAt B c (tol.getD 0) p = false) :
    find_color B c tol rect start = none ∧
    find_every_color B c tol rect start = [] ∧
    count_of_color B c tol rect start = 0 := by
  refine ⟨List.find?_eq_none.mpr ?_, List.filter_eq_nil_iff.mpr ?_,
    List.countP_eq_zero.mpr ?_⟩ <;>
    exact fun p hp => by simp [h p hp]

lemma bitmap_allFalse_empty (B N : PixelBuffer) (tol : Option ℚ)
    (rect : Option Rect) (start : Option Point)
    (h : ∀ p ∈ searchPositions B.bounds rect start,
      bitmapAt B (effective_region B.bounds rect) N (tol.getD 0) p = false) :
    find_bitmap B N tol rect start = none ∧
    find_every_bitmap B N tol rect start = [] ∧
    count_of_bitmap B N tol rect start = 0 := by
  refine ⟨List.find?_eq_none.mpr ?_, List.filter_eq_nil_iff.mpr ?_,
    List.countP_eq_zero.mpr ?_⟩ <;>
    exact fun p hp => by simp [h p hp]

lemma searchPositions_nil_of_region_nonpos (B : PixelBuffer)
    (rect : Option Rect) (start : Option Point)
    (h : (effective_region B.bounds rect).size.width ≤ 0 ∨
      (effective_region B.bounds rect).size.height ≤ 0) :
    searchPositions B.bounds rect start = [] := by
  simp only [searchPositions]
  rw [scanPositions_nil_of_nonpos _ h]
  rfl

lemma needleFits_false_of_larger (B N : PixelBuffer) (rect : Option Rect)
    (start : Option Point) (p : Point)
    (hp : p ∈ searchPositions B.bounds rect start)
    (h : (effective_region B.bounds rect).size.width < (N.width : ℚ) ∨
      (effective_region B.bounds rect).size.height < (N.height : ℚ)) :
    needleFitsAt (effective_region B.bounds rect) N p = false := by
  simp only [searchPositions] at hp
  have hp1 : p ∈ (effective_region B.bounds rect).scanPositions :=
    (List.mem_filter.mp hp).1
  simp only [Rect.scanPositions, List.mem_flatMap, List.mem_map,
    List.mem_range] at hp1
  obtain ⟨j, hj, i, hi, rfl⟩ := hp1
  rw [needleFitsAt, decide_eq_false_iff_not]
  rintro ⟨hx, hy⟩
  simp only at hx hy
  rcases h with h | h
  · have hi0 : (0 : ℚ) ≤ (i : ℚ) := Nat.cast_nonneg i
    linarith
  · have hj0 : (0 : ℚ) ≤ (j : ℚ) := Nat.cast_nonneg j
    linarith

/-- C3: finding nothing is never an error.  When no pixel matches the
searched color, or the needle fits and matches nowhere, `find_color` /
`find_bitmap` return `none` and `find_every_*` / `count_of_*` return an
empty list / zero; the same holds when the rect does not overlap the
buffer bounds (empty effective region) and when the needle is larger than
the effective region. -/
theorem no_match_yields_empty (B N : PixelBuffer) (c : Rgba)
    (tol : Option ℚ) (rect : Option Rect) (start : Option Point) :
    ((∀ p ∈ searchPositions B.bounds rect start,
        colorAt B c (tol.getD 0) p = false) →
      find_color B c tol rect start = none ∧
      find_every_color B c tol rect start = [] ∧
      count_of_color B c tol rect start = 0)
    ∧ ((∀ p ∈ searchPositions B.bounds rect start,
        bitmapAt B (effective_region B.bounds rect) N (tol.getD 0) p = false) →
      find_bitmap B N tol rect start = none ∧
      find_every_bitmap B N tol rect start = [] ∧
      count_of_bitmap B N tol rect start = 0)
    ∧ (((effective_region B.bounds rect).size.width ≤ 0 ∨
        (effective_region B.bounds rect).size.height ≤ 0) →
      find_color B c tol rect start = none ∧
      find_every_color B c tol rect start = [] ∧
      count_of_color B c tol rect start = 0 ∧
      find_bitmap B N tol rect start = none ∧
      find_every_bitmap B N tol rect start = [] ∧
      count_of_bitmap B N tol rect start = 0)
    ∧ (((effective_region B.bounds rect).size.width < (N.width : ℚ) ∨
        (effective_region B.bounds rect).size.height < (N.height : ℚ)) →
      find_bitmap B N tol rect start = none ∧
      find_every_bitmap B N tol rect start = [] ∧
      count_of_bitmap B N tol rect start = 0) := by
  refine ⟨color_allFalse_empty B c tol rect start,
    bitmap_allFalse_empty B N tol rect start, fun h => ?_, fun h => ?_⟩
  · have hs := searchPositions_nil_of_region_nonpos B rect start h
    obtain ⟨h1, h2, h3⟩ := color_allFalse_empty B c tol rect start
      (fun p hp => by rw [hs] at hp; cases hp)
    obtain ⟨h4, h5, h6⟩ := bitmap_allFalse_empty B N tol rect start
      (fun p hp => by rw [hs] at hp; cases hp)
    exact ⟨h1, h2, h3, h4, h5, h6⟩
  · refine bitmap_allFalse_empty B N tol rect start fun p hp => ?_
    rw [bitmapAt, needleFits_false_of_larger B N rect start p hp h]
    rfl

/-- C3 witness: searching the 4×4 example buffer with the rect
`((5,5),(1,1))`, which does not overlap its bounds, returns `none` / `[]`
/ `0` from every search operation (the 4×4 needle is also larger than the
empty effective region). -/
theorem no_match_yields_empty_witness :
    find_color exampleBuf redPx (some 0) (some ⟨⟨5, 5⟩, ⟨1, 1⟩⟩) none = none
    ∧ find_every_color exampleBuf redPx (some 0) (some ⟨⟨5, 5⟩, ⟨1, 1⟩⟩) none = []
    ∧ count_of_color exampleBuf redPx (some 0) (some ⟨⟨5, 5⟩, ⟨1, 1⟩⟩) none = 0
    ∧ find_bitmap exampleBuf exampleBuf (some 0) (some ⟨⟨5, 5⟩, ⟨1, 1⟩⟩) none = none
    ∧ find_every_bitmap exampleBuf exampleBuf (some 0) (some ⟨⟨5, 5⟩, ⟨1, 1⟩⟩) none = []
    ∧ count_of_bitmap exampleBuf exampleBuf (some 0) (some ⟨⟨5, 5⟩, ⟨1, 1⟩⟩) none = 0 := by
  have hw : (effective_region exampleBuf.bounds
      (some ⟨⟨5, 5⟩, ⟨1, 1⟩⟩)).size.width ≤ 0 := by
    simp [effective_region, Rect.intersection, PixelBuffer.bounds, exampleBuf]
    norm_num
  have hlt : (effective_region exampleBuf.bounds
      (some ⟨⟨5, 5⟩, ⟨1, 1⟩⟩)).size.width < ((exampleBuf.width : ℕ) : ℚ) := by
    refine lt_of_le_of_lt hw ?_
    simp [exampleBuf]
  have hs := searchPositions_nil_of_region_nonpos exampleBuf
    (some ⟨⟨5, 5⟩, ⟨1, 1⟩⟩) none (Or.inl hw)
  have hthm := no_match_yields_empty exampleBuf exampleBuf redPx (some 0)
    (some ⟨⟨5, 5⟩, ⟨1, 1⟩⟩) none
  have h1 := hthm.1 (fun p hp => by rw [hs] at hp; cases hp)
  have h2 := hthm.2.1 (fun p hp => by rw [hs] at hp; cases hp)
  have h3 := hthm.2.2.1 (Or.inl hw)
  have h4 := hthm.2.2.2 (Or.inl hlt)
  exact ⟨h1.1, h1.2.1, h3.2.2.1, h2.1, h4.2.1, h4.2.2⟩

lemma ok_find_color_py (B : PixelBuffer) (cT : Fin 256 × Fin 256 × Fin 256)
    (tol : Option ℚ) (rT : Option ((ℚ × ℚ) × (ℚ × ℚ)))
    (sT : Option (ℚ × ℚ)) : exceptOk (find_color_py B cT tol rT sT) = true := by
  unfold find_color_py
  cases find_color B ⟨cT.1, cT.2.1, cT.2.2, 255⟩ tol (Option.map toRect rT)
    (Option.map toPoint sT) <;> rfl

lemma ok_find_every_color_py (B : PixelBuffer) (cT : Fin 256 × Fin 256 × Fin 256)
    (tol : Option ℚ) (rT : Option ((ℚ × ℚ) × (ℚ × ℚ)))
    (sT : Option (ℚ × ℚ)) : exceptOk (find_every_color_py B cT tol rT sT) = true := rfl

lemma ok_count_of_color_py (B : PixelBuffer) (cT : Fin 256 × Fin 256 × Fin 256)
    (tol : Option ℚ) (rT : Option ((ℚ × ℚ) × (ℚ × ℚ)))
    (sT : Option (ℚ × ℚ)) : exceptOk (count_of_color_py B cT tol rT sT) = true := rfl

lemma ok_find_bitmap_py (B N : PixelBuffer)
    (tol : Option ℚ) (rT : Option ((ℚ × ℚ) × (ℚ × ℚ)))
    (sT : Option (ℚ × ℚ)) : exceptOk (find_bitmap_py B N tol rT sT) = true := by
  unfold find_bitmap_py
  cases find_bitmap B N tol (Option.map toRect rT) (Option.map toPoint sT) <;>
    rfl

lemma ok_find_every_bitmap_py (B N : PixelBuffer)
    (tol : Option ℚ) (rT : Option ((ℚ × ℚ) × (ℚ × ℚ)))
    (sT : Option (ℚ × ℚ)) : exceptOk (find_every_bitmap_py B N tol rT sT) = true := rfl

lemma ok_count_of_bitmap_py (B N : PixelBuffer)
    (tol : Option ℚ) (rT : Option ((ℚ × ℚ) × (ℚ × ℚ)))
    (sT : Option (ℚ × ℚ)) : exceptOk (count_of_bitmap_py B N tol rT sT) = true := rfl

/-- C9 (amended): the binding's search operations never raise — for every
buffer, color/needle, rect, start point and tolerance (including values
outside `[0, 1]`), all six operations return an ordinary `Ok` result; an
out-of-range tolerance is not rejected but passed through to the
per-channel matching rule. -/
theorem search_ops_never_fail (B N : PixelBuffer)
    (cT : Fin 256 × Fin 256 × Fin 256) (tol : Option ℚ)
    (rT : Option ((ℚ × ℚ) × (ℚ × ℚ))) (sT : Option (ℚ × ℚ)) :
    exceptOk (find_color_py B cT tol rT sT) = true
    ∧ exceptOk (find_every_color_py B cT tol rT sT) = true
    ∧ exceptOk (count_of_color_py B cT tol rT sT) = true
    ∧ exceptOk (find_bitmap_py B N tol rT sT) = true
    ∧ exceptOk (find_every_bitmap_py B N tol rT sT) = true
    ∧ exceptOk (count_of_bitmap_py B N tol rT sT) = true :=
  ⟨ok_find_color_py B cT tol rT sT, ok_find_every_color_py B cT tol rT sT,
    ok_count_of_color_py B cT tol rT sT, ok_find_bitmap_py B N tol rT sT,
    ok_find_every_bitmap_py B N tol rT sT, ok_count_of_bitmap_py B N tol rT sT⟩

/-- C9 counterexample: with the out-of-range tolerance `2`, `find_color`
on a 1×1 red buffer succeeds with a result instead of failing — no
`InvalidArgument` error is raised. -/
theorem tolerance_out_of_range_not_rejected :
    find_color_py oneRed (255, 0, 0) (some 2) none none = .ok (some (0, 0))
    ∧ exceptOk (find_color_py oneRed (255, 0, 0) (some 2) none none) = true := by
  have hr := effective_region_none oneRed
  obtain ⟨rest, hcons⟩ := searchPositions_full_cons oneRed none hr
    (by decide) (by decide)
  have hpix : oneRed.get_pixel ⟨0, 0⟩ = redPx := rfl
  have hfc : find_color oneRed ⟨255, 0, 0, 255⟩ (some 2) none none =
      some ⟨0, 0⟩ := by
    rw [find_color, hcons]
    simp only [Option.getD_some]
    rw [List.find?_cons_of_pos]
    rw [colorAt, hpix]
    exact colorsMatch_self redPx (by norm_num)
  have hok : find_color_py oneRed (255, 0, 0) (some 2) none none =
      .ok (some (0, 0)) := by
    show (match find_color oneRed ⟨255, 0, 0, 255⟩ (some 2) none none with
      | some p => Except.ok (some (p.x, p.y))
      | none => Except.ok none) = Except.ok (some ((0 : ℚ), (0 : ℚ)))
    rw [hfc]
  exact ⟨hok, by rw [hok]; rfl⟩
